import Mathlib

/-!
# Verification of the reon-heat-visualization data pipeline

Shallow embedding of the repository's core logic:

* `src/utils/heatmap.utils.ts` — `extractDates`, `filterDatesByRange`,
  `extractTimeSlots`, `transformToHeatmapData`, `getEntryByIndices`;
* `src/utils/chart.utils.ts` — `createVisualMap`;
* `src/hooks/useRuntimeData.ts` — `hasDataChanged` and the state update
  performed by `fetchData`;
* `src/api/services/runtime-data.service.ts` — the simple `fetchRuntimeData`;
* the cache-enabled `RuntimeDataService` variant (`fetchRuntimeData`,
  `validateResponse`, `createApiError`, `getCachedData`);
* the CSV export rows built by `handleDownloadData` in
  `src/component/Heatmap.tsx`.

Modelling conventions:

* JavaScript objects used as string-keyed maps (the `data` field of the
  payload) are modelled as ordered association lists (`List (String × _)`);
  real JS objects never hold duplicate keys, so theorems that depend on the
  map view assume `Nodup` on the key list where it matters.
* JS property lookup (`obj[k]`, `undefined` when absent) is `jsLookup`,
  returning `Option`.
* Numeric payload fields are modelled as `Int` (the observed payloads hold
  numeric telemetry; JS serializes integral numbers in plain decimal, which
  `intRepr` below reproduces).
* JS string comparison (`<`, `>=`, used by `filterDatesByRange` and by
  `Array.prototype.sort`'s default comparator on strings) is code-unit
  lexicographic order, modelled by `lexLe` on `List Char`.
* `JSON.stringify` on a fetched payload is modelled by `serializeResponse`,
  which emits exactly the character sequence `JSON.stringify` produces for a
  payload whose objects hold their fields in the declared order.
-/

set_option maxHeartbeats 1000000
set_option maxRecDepth 100000

namespace Reon

/-! ## Data model (src/api/types/runtime-data.types.ts) -/

structure RuntimeSource where
  color : String
  display : String
  name : String
  value : Int
  desc : String
  deriving DecidableEq, Repr

structure RuntimeDataPoint where
  time : String
  rtsources : Int
  sys_volt : Int
  batt_curr : Int
  batt_volt : Int
  rect_curr : Int
  load_curr : Int
  deriving DecidableEq, Repr

structure RuntimeDataMeta where
  sources : List RuntimeSource
  deriving DecidableEq, Repr

/-- `data` is the ordered key/value view of the JS object
`Record<string, RuntimeDataPoint[]>`. -/
structure RuntimeDataResponse where
  meta : RuntimeDataMeta
  data : List (String × List RuntimeDataPoint)
  deriving DecidableEq, Repr

/-- JS property lookup `obj[key]`: the association list holds each key once
(JS objects cannot hold duplicates), `none` models `undefined`. -/
def jsLookup {α : Type} (m : List (String × α)) (k : String) : Option α :=
  match m with
  | [] => none
  | (k', v) :: rest => if k' = k then some v else jsLookup rest k

theorem jsLookup_nil {α : Type} (k : String) : jsLookup ([] : List (String × α)) k = none := rfl

theorem jsLookup_cons {α : Type} (k' : String) (v : α) (rest : List (String × α)) (k : String) :
    jsLookup ((k', v) :: rest) k = if k' = k then some v else jsLookup rest k := rfl

/-- In a duplicate-free association list, membership determines the lookup. -/
theorem jsLookup_of_mem_nodup {α : Type} {m : List (String × α)} {k : String} {v : α}
    (hmem : (k, v) ∈ m) (hnd : (m.map Prod.fst).Nodup) : jsLookup m k = some v := by
  induction m with
  | nil => cases hmem
  | cons hd tl ih =>
    obtain ⟨k', v'⟩ := hd
    simp only [List.map_cons, List.nodup_cons, List.mem_map] at hnd
    rcases List.mem_cons.mp hmem with h | h
    · cases h
      simp [jsLookup]
    · have hk : k' ≠ k := by
        rintro rfl
        exact hnd.1 ⟨(k', v), h, rfl⟩
      simp only [jsLookup, if_neg hk]
      exact ih h hnd.2

theorem jsLookup_isSome_iff {α : Type} (m : List (String × α)) (k : String) :
    (jsLookup m k).isSome ↔ k ∈ m.map Prod.fst := by
  induction m with
  | nil => simp [jsLookup]
  | cons hd tl ih =>
    obtain ⟨k', v'⟩ := hd
    by_cases h : k' = k
    · subst h; simp [jsLookup]
    · simp [jsLookup, h, ih, Ne.symm h]

/-! ## JS string order (code-unit lexicographic `<=`) -/

/-- JS `a <= b` on strings: lexicographic comparison of code units. -/
def lexLe : List Char → List Char → Bool
  | [], _ => true
  | _ :: _, [] => false
  | x :: xs, y :: ys => if x = y then lexLe xs ys else decide (x < y)

/-- JS `startDate <= date` as used by `filterDatesByRange` and `sort()`. -/
def jsLeB (a b : String) : Bool := lexLe a.data b.data

theorem lexLe_refl (l : List Char) : lexLe l l = true := by
  induction l with
  | nil => rfl
  | cons x xs ih => simp [lexLe, ih]

theorem lexLe_total (a b : List Char) : lexLe a b = true ∨ lexLe b a = true := by
  induction a generalizing b with
  | nil => left; rfl
  | cons x xs ih =>
    cases b with
    | nil => right; rfl
    | cons y ys =>
      by_cases hxy : x = y
      · subst hxy
        rcases ih ys with h | h
        · left; simp [lexLe, h]
        · right; simp [lexLe, h]
      · rcases lt_or_gt_of_ne hxy with h | h
        · left; simp [lexLe, hxy, h]
        · right; simp [lexLe, Ne.symm hxy, h, not_lt_of_gt h]

theorem lexLe_antisymm {a b : List Char} (h₁ : lexLe a b = true) (h₂ : lexLe b a = true) :
    a = b := by
  induction a generalizing b with
  | nil =>
    cases b with
    | nil => rfl
    | cons y ys => simp [lexLe] at h₂
  | cons x xs ih =>
    cases b with
    | nil => simp [lexLe] at h₁
    | cons y ys =>
      by_cases hxy : x = y
      · subst hxy
        simp only [lexLe, if_pos rfl] at h₁ h₂
        exact congrArg (x :: ·) (ih h₁ h₂)
      · simp only [lexLe, if_neg hxy, if_neg (Ne.symm hxy), decide_eq_true_eq] at h₁ h₂
        exact absurd h₂ (not_lt_of_gt h₁)

theorem lexLe_trans {a b c : List Char} (h₁ : lexLe a b = true) (h₂ : lexLe b c = true) :
    lexLe a c = true := by
  induction a generalizing b c with
  | nil => rfl
  | cons x xs ih =>
    cases b with
    | nil => simp [lexLe] at h₁
    | cons y ys =>
      cases c with
      | nil => simp [lexLe] at h₂
      | cons z zs =>
        by_cases hxy : x = y <;> by_cases hyz : y = z
        · subst hxy; subst hyz
          simp only [lexLe, if_pos rfl] at h₁ h₂ ⊢
          exact ih h₁ h₂
        · subst hxy
          simp only [lexLe, if_neg hyz] at h₂ ⊢
          exact h₂
        · subst hyz
          simp only [lexLe, if_neg hxy] at h₁ ⊢
          exact h₁
        · simp only [lexLe, if_neg hxy, if_neg hyz, decide_eq_true_eq] at h₁ h₂
          by_cases hxz : x = z
          · subst hxz; exact absurd (lt_trans h₁ h₂) (lt_irrefl x)
          · simp [lexLe, if_neg hxz, lt_trans h₁ h₂]

theorem jsLeB_refl (s : String) : jsLeB s s = true := lexLe_refl s.data

theorem jsLeB_total (a b : String) : jsLeB a b = true ∨ jsLeB b a = true := lexLe_total _ _

theorem jsLeB_antisymm {a b : String} (h₁ : jsLeB a b = true) (h₂ : jsLeB b a = true) : a = b :=
  String.ext (lexLe_antisymm h₁ h₂)

theorem jsLeB_trans {a b c : String} (h₁ : jsLeB a b = true) (h₂ : jsLeB b c = true) :
    jsLeB a c = true := lexLe_trans h₁ h₂

/-! ## heatmap.utils.ts -/

/-- `filterDatesByRange` (src/utils/heatmap.utils.ts:19-28).
`!startDate` / `!endDate` are the JS falsiness tests on strings (true exactly
for the empty string); the filter keeps `date >= startDate && date <= endDate`. -/
def filterDatesByRange (allDates : List String) (startDate endDate : String) : List String :=
  if startDate = "" || endDate = "" || allDates.length == 0 then []
  else allDates.filter (fun date => jsLeB startDate date && jsLeB date endDate)

/-- `getEntryByIndices` (src/utils/heatmap.utils.ts:69-77).
`entries[timeIndex]` with an `Int` index: `undefined` (hence `null` overall)
unless `0 <= timeIndex < entries.length`; array elements are objects, hence
always truthy, so `!entries[timeIndex]` is exactly the bounds test. -/
def getEntryByIndices (data : RuntimeDataResponse) (date : String) (timeIndex : Int) :
    Option RuntimeDataPoint :=
  match jsLookup data.data date with
  | none => none
  | some entries =>
      if h : 0 ≤ timeIndex ∧ timeIndex.toNat < entries.length then
        some (entries.get ⟨timeIndex.toNat, h.2⟩)
      else none

/-! ## Sorting (JS `Array.prototype.sort()` on strings)

`Object.keys(data.data).sort()` sorts the keys ascending under the default
string comparator. `lexLe` is total, transitive and antisymmetric, so the
sorted permutation of a list is unique and any correct sorting algorithm
models `sort()` exactly; we use insertion sort. -/

def insertSorted (a : String) : List String → List String
  | [] => [a]
  | b :: bs => if jsLeB a b then a :: b :: bs else b :: insertSorted a bs

def jsSort (l : List String) : List String := l.foldr insertSorted []

/-- Sortedness under the JS string order. -/
def LexSorted (l : List String) : Prop := l.Pairwise (fun a b => jsLeB a b = true)

theorem insertSorted_perm (a : String) (l : List String) :
    (insertSorted a l).Perm (a :: l) := by
  induction l with
  | nil => exact List.Perm.refl _
  | cons b bs ih =>
    by_cases h : jsLeB a b = true
    · simp [insertSorted, h]
    · simp only [insertSorted, h]
      exact (List.Perm.cons b ih).trans (List.Perm.swap a b bs)

theorem mem_insertSorted {x a : String} {l : List String} :
    x ∈ insertSorted a l ↔ x = a ∨ x ∈ l := by
  constructor
  · intro hx
    have := (insertSorted_perm a l).mem_iff.mp hx
    simpa using this
  · intro hx
    apply (insertSorted_perm a l).mem_iff.mpr
    simpa using hx

theorem insertSorted_sorted {a : String} {l : List String} (h : LexSorted l) :
    LexSorted (insertSorted a l) := by
  induction l with
  | nil => simp [insertSorted, LexSorted]
  | cons b bs ih =>
    rcases List.pairwise_cons.mp h with ⟨hb, hbs⟩
    by_cases hab : jsLeB a b = true
    · simp only [insertSorted, hab, if_pos]
      refine List.pairwise_cons.mpr ⟨?_, h⟩
      intro x hx
      rcases List.mem_cons.mp hx with rfl | hx
      · exact hab
      · exact jsLeB_trans hab (hb x hx)
    · simp only [insertSorted, hab, if_neg, Bool.not_eq_true]
      refine List.pairwise_cons.mpr ⟨?_, ih hbs⟩
      intro x hx
      rcases mem_insertSorted.mp hx with rfl | hx
      · rcases jsLeB_total x b with h' | h'
        · exact absurd h' hab
        · exact h'
      · exact hb x hx

theorem jsSort_perm (l : List String) : (jsSort l).Perm l := by
  induction l with
  | nil => exact List.Perm.refl _
  | cons a as ih =>
    exact (insertSorted_perm a (jsSort as)).trans (List.Perm.cons a ih)

theorem jsSort_sorted (l : List String) : LexSorted (jsSort l) := by
  induction l with
  | nil => simp [jsSort, LexSorted]
  | cons a as ih => exact insertSorted_sorted ih

theorem lexSorted_head_min {h : String} {t : List String} (hs : LexSorted (h :: t)) :
    ∀ x ∈ h :: t, jsLeB h x = true := by
  intro x hx
  rcases List.mem_cons.mp hx with rfl | hx
  · exact jsLeB_refl x
  · exact (List.pairwise_cons.mp hs).1 x hx

/-- `extractDates` (src/utils/heatmap.utils.ts:12-14):
`Object.keys(data.data).sort()`. Key enumeration order is insertion order,
i.e. the order of the association list. -/
def extractDates (data : RuntimeDataResponse) : List String :=
  jsSort (data.data.map Prod.fst)

/-- `extractTimeSlots` (src/utils/heatmap.utils.ts:33-39):
`allDates[0]` is `undefined` on an empty list and `!firstDate` is also true
for the empty string; `entries ? entries.map(e => e.time) : []`. -/
def extractTimeSlots (data : RuntimeDataResponse) (allDates : List String) : List String :=
  match allDates.head? with
  | none => []
  | some firstDate =>
      if firstDate = "" then []
      else
        match jsLookup data.data firstDate with
        | none => []
        | some entries => entries.map (·.time)

/-! ## Grid transformer (src/utils/heatmap.utils.ts:44-64) -/

structure HeatmapDataPoint where
  timeIndex : Nat
  dateIndex : Nat
  value : Int
  deriving DecidableEq, Repr

/-- The inner `entries.forEach((entry, timeIndex) => result.push(...))`
loop of `transformToHeatmapData`, with `ti` the next time index. -/
def rowFrom (di ti : Nat) : List RuntimeDataPoint → List HeatmapDataPoint
  | [] => []
  | e :: rest => ⟨ti, di, e.rtsources⟩ :: rowFrom di (ti + 1) rest

/-- The outer `filteredDates.forEach((date, dateIndex) => ...)` loop, with
`di` the next date index; `if (!entries) return;` skips absent dates. -/
def transformFrom (data : RuntimeDataResponse) (di : Nat) :
    List String → List HeatmapDataPoint
  | [] => []
  | date :: rest =>
      (match jsLookup data.data date with
       | none => []
       | some entries => rowFrom di 0 entries) ++ transformFrom data (di + 1) rest

/-- `transformToHeatmapData` (src/utils/heatmap.utils.ts:44-64). -/
def transformToHeatmapData (data : RuntimeDataResponse) (filteredDates : List String) :
    List HeatmapDataPoint :=
  transformFrom data 0 filteredDates

/-! ## createVisualMap (src/utils/chart.utils.ts:5-41) -/

def ALLOWED_SOURCES : List String :=
  ["Battery", "Battery Solar", "Genset Battery", "Genset Solar Battery"]

structure VisualMapPiece where
  min : Int
  max : Int
  color : String
  label : String
  deriving DecidableEq, Repr

structure VisualMap where
  type : String
  min : Int
  max : Int
  pieces : List VisualMapPiece
  left : String
  top : String
  orient : String
  itemWidth : Int
  itemHeight : Int
  itemGap : Int
  showLabel : Bool
  deriving Repr

/-- `createVisualMap`: filter `meta.sources` to the allowed display labels,
then map each source to a piece with `min = max = value`. -/
def createVisualMap (data : RuntimeDataResponse) : VisualMap :=
  { type := "piecewise"
    min := 0
    max := 13
    pieces :=
      (data.meta.sources.filter (fun source => ALLOWED_SOURCES.contains source.display)).map
        (fun source =>
          { min := source.value
            max := source.value
            color := source.color
            label := source.display })
    left := "center"
    top := "top"
    orient := "horizontal"
    itemWidth := 20
    itemHeight := 14
    itemGap := 15
    showLabel := true }

/-! ## Decimal serialization of numbers

JavaScript serializes integral numbers (`String(n)`, template literals,
`JSON.stringify`) as an optional `-` sign followed by plain decimal digits.
-/

def digitChar (d : Nat) : Char := Char.ofNat (48 + d)

def natRepr (n : Nat) : List Char :=
  if _h : n < 10 then [digitChar n] else natRepr (n / 10) ++ [digitChar (n % 10)]
  decreasing_by exact Nat.div_lt_self (by omega) (by omega)

theorem digitChar_toNat {d : Nat} (h : d < 10) : (digitChar d).toNat = 48 + d := by
  interval_cases d <;> rfl

/-- Decimal digits back to the number they denote. -/
def evalDigits (l : List Char) : Nat :=
  l.foldl (fun acc c => 10 * acc + (c.toNat - 48)) 0

theorem evalDigits_natRepr (n : Nat) : evalDigits (natRepr n) = n := by
  induction n using Nat.strong_induction_on with
  | _ n ih =>
    by_cases h : n < 10
    · rw [natRepr, dif_pos h]
      simp [evalDigits, digitChar_toNat h]
    · rw [natRepr, dif_neg h]
      have hlt : n / 10 < n := Nat.div_lt_self (by omega) (by omega)
      have hmod : n % 10 < 10 := Nat.mod_lt _ (by omega)
      calc evalDigits (natRepr (n / 10) ++ [digitChar (n % 10)])
          = 10 * evalDigits (natRepr (n / 10)) + ((digitChar (n % 10)).toNat - 48) := by
            simp [evalDigits, List.foldl_append]
        _ = 10 * (n / 10) + n % 10 := by rw [ih _ hlt, digitChar_toNat hmod]; omega
        _ = n := by omega

theorem natRepr_inj {a b : Nat} (h : natRepr a = natRepr b) : a = b := by
  have := congrArg evalDigits h
  rwa [evalDigits_natRepr, evalDigits_natRepr] at this

theorem natRepr_digits (n : Nat) : ∀ c ∈ natRepr n, 48 ≤ c.toNat ∧ c.toNat ≤ 57 := by
  induction n using Nat.strong_induction_on with
  | _ n ih =>
    intro c hc
    by_cases h : n < 10
    · rw [natRepr, dif_pos h] at hc
      rcases List.mem_singleton.mp hc with rfl
      rw [digitChar_toNat h]; omega
    · rw [natRepr, dif_neg h] at hc
      rcases List.mem_append.mp hc with hc | hc
      · exact ih _ (Nat.div_lt_self (by omega) (by omega)) c hc
      · rcases List.mem_singleton.mp hc with rfl
        rw [digitChar_toNat (Nat.mod_lt _ (by omega))]
        have := Nat.mod_lt n (y := 10) (by omega)
        omega

theorem natRepr_ne_nil (n : Nat) : natRepr n ≠ [] := by
  rw [natRepr]
  by_cases h : n < 10
  · simp [h]
  · simp [h]

/-- JS decimal string of an integral number. -/
def intRepr (i : Int) : List Char :=
  if i < 0 then '-' :: natRepr i.natAbs else natRepr i.toNat

theorem intRepr_head_digit_of_nonneg {i : Int} (h : ¬i < 0) :
    ∃ c r, intRepr i = c :: r ∧ 48 ≤ c.toNat := by
  rw [intRepr, if_neg h]
  cases hrep : natRepr i.toNat with
  | nil => exact absurd hrep (natRepr_ne_nil _)
  | cons c r =>
    exact ⟨c, r, rfl, (natRepr_digits _ c (by rw [hrep]; exact List.mem_cons_self c r)).1⟩

theorem intRepr_inj {a b : Int} (h : intRepr a = intRepr b) : a = b := by
  have h45 : ('-' : Char).toNat = 45 := rfl
  by_cases ha : a < 0 <;> by_cases hb : b < 0
  · rw [intRepr, if_pos ha, intRepr, if_pos hb] at h
    injection h with h1 h2
    have := natRepr_inj h2
    omega
  · obtain ⟨c, r, hcr, hc⟩ := intRepr_head_digit_of_nonneg hb
    rw [hcr, intRepr, if_pos ha] at h
    injection h with h1 h2
    rw [← h1, h45] at hc
    omega
  · obtain ⟨c, r, hcr, hc⟩ := intRepr_head_digit_of_nonneg ha
    rw [hcr, intRepr, if_pos hb] at h
    injection h with h1 h2
    rw [h1, h45] at hc
    omega
  · rw [intRepr, if_neg ha, intRepr, if_neg hb] at h
    have := natRepr_inj h
    omega

theorem intRepr_no_comma (i : Int) : ∀ c ∈ intRepr i, c ≠ ',' := by
  intro c hc hcc
  subst hcc
  have h44 : (',' : Char).toNat = 44 := rfl
  rw [intRepr] at hc
  by_cases h : i < 0
  · rw [if_pos h] at hc
    rcases List.mem_cons.mp hc with heq | hc
    · exact absurd heq (by decide)
    · have := natRepr_digits _ _ hc
      omega
  · rw [if_neg h] at hc
    have := natRepr_digits _ _ hc
    omega

/-! ## JSON string escaping (`JSON.stringify`'s QuoteJSONString)

`JSON.stringify` escapes `"` and `\` with a backslash, the control characters
BS/TAB/LF/FF/CR as `\b \t \n \f \r`, and every other code point below 0x20 as
`\u00XX`; all other characters pass through verbatim. -/

def hexDigitChar (d : Nat) : Char :=
  if d < 10 then Char.ofNat (48 + d) else Char.ofNat (87 + d)

def hexVal (c : Char) : Nat :=
  if 97 ≤ c.toNat then c.toNat - 87 else c.toNat - 48

theorem hexVal_hexDigitChar {d : Nat} (h : d < 16) : hexVal (hexDigitChar d) = d := by
  interval_cases d <;> decide

def escapeChar (c : Char) : List Char :=
  if c = '"' then ['\\', '"']
  else if c = '\\' then ['\\', '\\']
  else if c = '\x08' then ['\\', 'b']
  else if c = '\t' then ['\\', 't']
  else if c = '\n' then ['\\', 'n']
  else if c = '\x0c' then ['\\', 'f']
  else if c = '\x0d' then ['\\', 'r']
  else if c.toNat < 32 then
    ['\\', 'u', '0', '0', hexDigitChar (c.toNat / 16), hexDigitChar (c.toNat % 16)]
  else [c]

def escape : List Char → List Char
  | [] => []
  | c :: rest => escapeChar c ++ escape rest

def unescChar (c : Char) : Char :=
  if c = 'b' then '\x08'
  else if c = 't' then '\t'
  else if c = 'n' then '\n'
  else if c = 'f' then '\x0c'
  else if c = 'r' then '\x0d'
  else c

/-- Left inverse of `escape`, used only to prove `escape` injective. -/
def unescape : List Char → List Char
  | [] => []
  | '\\' :: 'u' :: _ :: _ :: h :: l :: rest => Char.ofNat (16 * hexVal h + hexVal l) :: unescape rest
  | '\\' :: d :: rest => unescChar d :: unescape rest
  | c :: rest => c :: unescape rest

theorem unescape_cons_of_ne {c : Char} (h : c ≠ '\\') (l : List Char) :
    unescape (c :: l) = c :: unescape l := by
  rw [unescape.eq_def]
  split
  · rename_i heq; exact absurd heq (by simp)
  · rename_i heq; rw [List.cons.injEq] at heq; exact absurd heq.1 h
  · rename_i heq; rw [List.cons.injEq] at heq; exact absurd heq.1 h
  · rename_i c' l' heq; rw [List.cons.injEq] at heq; rw [heq.1, heq.2]

theorem unescape_escape (s : List Char) : unescape (escape s) = s := by
  induction s with
  | nil => rfl
  | cons c rest ih =>
    show unescape (escapeChar c ++ escape rest) = c :: rest
    by_cases h1 : c = '"'
    · subst h1; simp [escapeChar, unescape, unescChar, ih]
    by_cases h2 : c = '\\'
    · subst h2; simp [escapeChar, h1, unescape, unescChar, ih]
    by_cases h3 : c = '\x08'
    · subst h3; simp [escapeChar, h1, h2, unescape, unescChar, ih]
    by_cases h4 : c = '\t'
    · subst h4; simp [escapeChar, h1, h2, h3, unescape, unescChar, ih]
    by_cases h5 : c = '\n'
    · subst h5; simp [escapeChar, h1, h2, h3, h4, unescape, unescChar, ih]
    by_cases h6 : c = '\x0c'
    · subst h6; simp [escapeChar, h1, h2, h3, h4, h5, unescape, unescChar, ih]
    by_cases h7 : c = '\x0d'
    · subst h7; simp [escapeChar, h1, h2, h3, h4, h5, h6, unescape, unescChar, ih]
    by_cases h8 : c.toNat < 32
    · have hdiv : c.toNat / 16 < 16 := by omega
      have hmod : c.toNat % 16 < 16 := by omega
      simp only [escapeChar, h1, h2, h3, h4, h5, h6, h7, h8, if_neg, if_pos, if_false,
        if_true, List.cons_append, List.nil_append]
      show unescape ('\\' :: 'u' :: '0' :: '0' :: hexDigitChar (c.toNat / 16) ::
        hexDigitChar (c.toNat % 16) :: escape rest) = c :: rest
      rw [unescape, hexVal_hexDigitChar hdiv, hexVal_hexDigitChar hmod, ih]
      congr 1
      have : 16 * (c.toNat / 16) + c.toNat % 16 = c.toNat := by omega
      rw [this, Char.ofNat_toNat]
    · simp only [escapeChar, h1, h2, h3, h4, h5, h6, h7, h8, if_neg, if_false,
        List.cons_append, List.nil_append]
      show unescape (c :: escape rest) = c :: rest
      rw [unescape_cons_of_ne h2, ih]

theorem escape_inj {a b : List Char} (h : escape a = escape b) : a = b := by
  have := congrArg unescape h
  rwa [unescape_escape, unescape_escape] at this

/-! ## `JSON.stringify` of a runtime-data payload

`serializeResponse` emits exactly the character sequence `JSON.stringify`
produces for a payload whose objects hold their fields in declared order:
no whitespace, keys and string values quoted and escaped, arrays and the
date map in stored order. -/

def lit (s : String) : List Char := s.data

def serializeStr (s : String) : List Char := '"' :: escape s.data ++ ['"']

def sepByTail {α : Type} (f : α → List Char) : List α → List Char
  | [] => []
  | x :: xs => ',' :: f x ++ sepByTail f xs

/-- Comma-separated serialization of array elements / object entries. -/
def sepBy {α : Type} (f : α → List Char) : List α → List Char
  | [] => []
  | x :: xs => f x ++ sepByTail f xs

def serializeSource (s : RuntimeSource) : List Char :=
  lit "\x7b\"color\":" ++ serializeStr s.color ++
  lit ",\"display\":" ++ serializeStr s.display ++
  lit ",\"name\":" ++ serializeStr s.name ++
  lit ",\"value\":" ++ intRepr s.value ++
  lit ",\"desc\":" ++ serializeStr s.desc ++ ['\x7d']

def serializePoint (p : RuntimeDataPoint) : List Char :=
  lit "\x7b\"time\":" ++ serializeStr p.time ++
  lit ",\"rtsources\":" ++ intRepr p.rtsources ++
  lit ",\"sys_volt\":" ++ intRepr p.sys_volt ++
  lit ",\"batt_curr\":" ++ intRepr p.batt_curr ++
  lit ",\"batt_volt\":" ++ intRepr p.batt_volt ++
  lit ",\"rect_curr\":" ++ intRepr p.rect_curr ++
  lit ",\"load_curr\":" ++ intRepr p.load_curr ++ ['\x7d']

def serializeArr {α : Type} (f : α → List Char) (l : List α) : List Char :=
  '[' :: sepBy f l ++ [']']

def serializeEntry (e : String × List RuntimeDataPoint) : List Char :=
  serializeStr e.1 ++ ':' :: serializeArr serializePoint e.2

def serializeData (d : List (String × List RuntimeDataPoint)) : List Char :=
  '\x7b' :: sepBy serializeEntry d ++ ['\x7d']

def serializeMeta (m : RuntimeDataMeta) : List Char :=
  lit "\x7b\"sources\":" ++ serializeArr serializeSource m.sources ++ ['\x7d']

def serializeResponse (r : RuntimeDataResponse) : List Char :=
  lit "\x7b\"meta\":" ++ serializeMeta r.meta ++
  lit ",\"data\":" ++ serializeData r.data ++ ['\x7d']

/-! ## useRuntimeData hook (src/hooks/useRuntimeData.ts) -/

/-- `ApiError` (src/api/types): `status`/`statusText` are optional fields. -/
structure ApiError where
  message : String
  status : Option Nat
  statusText : Option String
  deriving DecidableEq, Repr

/-- `hasDataChanged` (useRuntimeData.ts:29-38): null guards, then comparison
of the `JSON.stringify` strings (`JSON.stringify` is injective on JSON
values, so comparing the emitted character lists is the same test). -/
def hasDataChanged (oldData newData : Option RuntimeDataResponse) : Bool :=
  match oldData, newData with
  | none, none => false
  | none, some _ => true
  | some _, none => true
  | some a, some b => serializeResponse a != serializeResponse b

/-- The state exposed/owned by the hook that `fetchData` touches.
`isInitialMount` models `isInitialMountRef.current`. -/
structure HookState where
  data : Option RuntimeDataResponse
  loading : Bool
  error : Option ApiError
  isInitialMount : Bool
  deriving DecidableEq, Repr

/-- The `setData` functional update inside `fetchData` (lines 70-75). -/
def setDataStep (prevData : Option RuntimeDataResponse) (result : RuntimeDataResponse) :
    Option RuntimeDataResponse :=
  if hasDataChanged prevData (some result) then some result else prevData

/-- One complete run of `fetchData(silent)` (useRuntimeData.ts:59-90), given
the outcome of `fetchRuntimeData()`: conditional `setLoading(true)`, the
unconditional `setError(null)`, the success/failure branch, and the
`finally` block (conditional `setLoading(false)`, then
`isInitialMountRef.current = false`). -/
def fetchDataStep (silent : Bool) (outcome : Except ApiError RuntimeDataResponse)
    (s : HookState) : HookState :=
  let s1 := if !silent || s.isInitialMount then { s with loading := true } else s
  let s2 := { s1 with error := none }
  let s3 :=
    match outcome with
    | .ok result => { s2 with data := setDataStep s2.data result }
    | .error e => if !silent then { s2 with error := some e } else s2
  let s4 := if !silent || s.isInitialMount then { s3 with loading := false } else s3
  { s4 with isInitialMount := false }

/-- Structural identity of payloads irrespective of the key order of the
date map: equal metadata and, for every key, equal looked-up value. -/
def StructurallyIdentical (r₁ r₂ : RuntimeDataResponse) : Prop :=
  r₁.meta = r₂.meta ∧ ∀ k, jsLookup r₁.data k = jsLookup r₂.data k

/-- Decidable test implying `StructurallyIdentical` (used to certify the
counterexample): metadata equal and lookups agree on the keys of both maps. -/
def structurallyIdenticalB (r₁ r₂ : RuntimeDataResponse) : Bool :=
  r₁.meta == r₂.meta &&
  (r₁.data.map Prod.fst).all (fun k => jsLookup r₁.data k == jsLookup r₂.data k) &&
  (r₂.data.map Prod.fst).all (fun k => jsLookup r₁.data k == jsLookup r₂.data k)

theorem structurallyIdentical_of_b {r₁ r₂ : RuntimeDataResponse}
    (h : structurallyIdenticalB r₁ r₂ = true) : StructurallyIdentical r₁ r₂ := by
  rw [structurallyIdenticalB, Bool.and_eq_true, Bool.and_eq_true] at h
  obtain ⟨⟨hmeta, h₁⟩, h₂⟩ := h
  refine ⟨by simpa using hmeta, fun k => ?_⟩
  by_cases hk₁ : k ∈ r₁.data.map Prod.fst
  · simpa using List.all_eq_true.mp h₁ k hk₁
  · by_cases hk₂ : k ∈ r₂.data.map Prod.fst
    · simpa using List.all_eq_true.mp h₂ k hk₂
    · have e₁ : jsLookup r₁.data k = none := by
        by_contra hne
        exact hk₁ ((jsLookup_isSome_iff _ _).mp (Option.ne_none_iff_isSome.mp hne))
      have e₂ : jsLookup r₂.data k = none := by
        by_contra hne
        exact hk₂ ((jsLookup_isSome_iff _ _).mp (Option.ne_none_iff_isSome.mp hne))
      rw [e₁, e₂]

/-! ## Injectivity facts about the serializer

Enough to show that two payloads differing in a single field serialize to
different strings (so `hasDataChanged` detects the change). -/

theorem append_cancel_mid {A B x y : List Char} (h : A ++ x ++ B = A ++ y ++ B) : x = y := by
  rw [List.append_assoc, List.append_assoc] at h
  exact List.append_cancel_right (List.append_cancel_left h)

theorem serializeStr_inj {a b : String} (h : serializeStr a = serializeStr b) : a = b := by
  rw [serializeStr, serializeStr] at h
  injection h with _ h2
  exact String.ext (escape_inj (List.append_cancel_right h2))

theorem sepByTail_append {α : Type} (f : α → List Char) (l₁ l₂ : List α) :
    sepByTail f (l₁ ++ l₂) = sepByTail f l₁ ++ sepByTail f l₂ := by
  induction l₁ with
  | nil => simp [sepByTail]
  | cons x xs ih => simp [sepByTail, ih]

/-- The serialized text surrounding a distinguished element of a list. -/
def sepByCtx {α : Type} (f : α → List Char) : List α → List Char
  | [] => []
  | p :: ps => f p ++ sepByTail f ps ++ [',']

theorem sepBy_decomp {α : Type} (f : α → List Char) (pre : List α) (x : α) (post : List α) :
    sepBy f (pre ++ x :: post) = sepByCtx f pre ++ f x ++ sepByTail f post := by
  cases pre with
  | nil => simp [sepBy, sepByCtx, sepByTail]
  | cons p ps =>
    simp only [List.cons_append, sepBy, sepByCtx]
    rw [sepByTail_append]
    simp [sepByTail, List.append_assoc]

theorem sepBy_ne {α : Type} (f : α → List Char) {x y : α} (pre post : List α)
    (h : f x ≠ f y) : sepBy f (pre ++ x :: post) ≠ sepBy f (pre ++ y :: post) := by
  intro heq
  rw [sepBy_decomp, sepBy_decomp] at heq
  exact h (append_cancel_mid heq)

theorem serializeArr_ne {α : Type} (f : α → List Char) {x y : α} (pre post : List α)
    (h : f x ≠ f y) :
    serializeArr f (pre ++ x :: post) ≠ serializeArr f (pre ++ y :: post) := by
  intro heq
  rw [serializeArr, serializeArr] at heq
  injection heq with _ h2
  exact sepBy_ne f pre post h (List.append_cancel_right h2)

theorem serializeEntry_ne {d : String} {pts₁ pts₂ : List RuntimeDataPoint}
    (h : serializeArr serializePoint pts₁ ≠ serializeArr serializePoint pts₂) :
    serializeEntry (d, pts₁) ≠ serializeEntry (d, pts₂) := by
  intro heq
  rw [serializeEntry, serializeEntry] at heq
  have h2 := List.append_cancel_left heq
  injection h2 with _ h3
  exact h h3

theorem serializeData_ne {x y : String × List RuntimeDataPoint}
    (pre post : List (String × List RuntimeDataPoint))
    (h : serializeEntry x ≠ serializeEntry y) :
    serializeData (pre ++ x :: post) ≠ serializeData (pre ++ y :: post) := by
  intro heq
  rw [serializeData, serializeData] at heq
  injection heq with _ h2
  exact sepBy_ne serializeEntry pre post h (List.append_cancel_right h2)

/-- Two data points that agree on all fields except exactly one. -/
def OneFieldDiffPoint (p q : RuntimeDataPoint) : Prop :=
  (p.time ≠ q.time ∧ p.rtsources = q.rtsources ∧ p.sys_volt = q.sys_volt ∧
    p.batt_curr = q.batt_curr ∧ p.batt_volt = q.batt_volt ∧ p.rect_curr = q.rect_curr ∧
    p.load_curr = q.load_curr) ∨
  (p.time = q.time ∧ p.rtsources ≠ q.rtsources ∧ p.sys_volt = q.sys_volt ∧
    p.batt_curr = q.batt_curr ∧ p.batt_volt = q.batt_volt ∧ p.rect_curr = q.rect_curr ∧
    p.load_curr = q.load_curr) ∨
  (p.time = q.time ∧ p.rtsources = q.rtsources ∧ p.sys_volt ≠ q.sys_volt ∧
    p.batt_curr = q.batt_curr ∧ p.batt_volt = q.batt_volt ∧ p.rect_curr = q.rect_curr ∧
    p.load_curr = q.load_curr) ∨
  (p.time = q.time ∧ p.rtsources = q.rtsources ∧ p.sys_volt = q.sys_volt ∧
    p.batt_curr ≠ q.batt_curr ∧ p.batt_volt = q.batt_volt ∧ p.rect_curr = q.rect_curr ∧
    p.load_curr = q.load_curr) ∨
  (p.time = q.time ∧ p.rtsources = q.rtsources ∧ p.sys_volt = q.sys_volt ∧
    p.batt_curr = q.batt_curr ∧ p.batt_volt ≠ q.batt_volt ∧ p.rect_curr = q.rect_curr ∧
    p.load_curr = q.load_curr) ∨
  (p.time = q.time ∧ p.rtsources = q.rtsources ∧ p.sys_volt = q.sys_volt ∧
    p.batt_curr = q.batt_curr ∧ p.batt_volt = q.batt_volt ∧ p.rect_curr ≠ q.rect_curr ∧
    p.load_curr = q.load_curr) ∨
  (p.time = q.time ∧ p.rtsources = q.rtsources ∧ p.sys_volt = q.sys_volt ∧
    p.batt_curr = q.batt_curr ∧ p.batt_volt = q.batt_volt ∧ p.rect_curr = q.rect_curr ∧
    p.load_curr ≠ q.load_curr)

theorem serializePoint_ne {p q : RuntimeDataPoint} (h : OneFieldDiffPoint p q) :
    serializePoint p ≠ serializePoint q := by
  intro heq
  rw [serializePoint, serializePoint] at heq
  rcases h with ⟨h1, h2, h3, h4, h5, h6, h7⟩ | ⟨h1, h2, h3, h4, h5, h6, h7⟩ |
    ⟨h1, h2, h3, h4, h5, h6, h7⟩ | ⟨h1, h2, h3, h4, h5, h6, h7⟩ |
    ⟨h1, h2, h3, h4, h5, h6, h7⟩ | ⟨h1, h2, h3, h4, h5, h6, h7⟩ |
    ⟨h1, h2, h3, h4, h5, h6, h7⟩
  · rw [← h2, ← h3, ← h4, ← h5, ← h6, ← h7] at heq
    simp only [List.append_assoc] at heq
    have heq := List.append_cancel_left heq
    exact h1 (serializeStr_inj (List.append_cancel_right heq))
  · rw [← h1, ← h3, ← h4, ← h5, ← h6, ← h7] at heq
    simp only [List.append_assoc] at heq
    have heq := List.append_cancel_left heq
    have heq := List.append_cancel_left heq
    have heq := List.append_cancel_left heq
    exact h2 (intRepr_inj (List.append_cancel_right heq))
  · rw [← h1, ← h2, ← h4, ← h5, ← h6, ← h7] at heq
    simp only [List.append_assoc] at heq
    have heq := List.append_cancel_left heq
    have heq := List.append_cancel_left heq
    have heq := List.append_cancel_left heq
    have heq := List.append_cancel_left heq
    have heq := List.append_cancel_left heq
    exact h3 (intRepr_inj (List.append_cancel_right heq))
  · rw [← h1, ← h2, ← h3, ← h5, ← h6, ← h7] at heq
    simp only [List.append_assoc] at heq
    have heq := List.append_cancel_left heq
    have heq := List.append_cancel_left heq
    have heq := List.append_cancel_left heq
    have heq := List.append_cancel_left heq
    have heq := List.append_cancel_left heq
    have heq := List.append_cancel_left heq
    have heq := List.append_cancel_left heq
    exact h4 (intRepr_inj (List.append_cancel_right heq))
  · rw [← h1, ← h2, ← h3, ← h4, ← h6, ← h7] at heq
    simp only [List.append_assoc] at heq
    have heq := List.append_cancel_left heq
    have heq := List.append_cancel_left heq
    have heq := List.append_cancel_left heq
    have heq := List.append_cancel_left heq
    have heq := List.append_cancel_left heq
    have heq := List.append_cancel_left heq
    have heq := List.append_cancel_left heq
    have heq := List.append_cancel_left heq
    have heq := List.append_cancel_left heq
    exact h5 (intRepr_inj (List.append_cancel_right heq))
  · rw [← h1, ← h2, ← h3, ← h4, ← h5, ← h7] at heq
    simp only [List.append_assoc] at heq
    have heq := List.append_cancel_left heq
    have heq := List.append_cancel_left heq
    have heq := List.append_cancel_left heq
    have heq := List.append_cancel_left heq
    have heq := List.append_cancel_left heq
    have heq := List.append_cancel_left heq
    have heq := List.append_cancel_left heq
    have heq := List.append_cancel_left heq
    have heq := List.append_cancel_left heq
    have heq := List.append_cancel_left heq
    have heq := List.append_cancel_left heq
    exact h6 (intRepr_inj (List.append_cancel_right heq))
  · rw [← h1, ← h2, ← h3, ← h4, ← h5, ← h6] at heq
    simp only [List.append_assoc] at heq
    have heq := List.append_cancel_left heq
    have heq := List.append_cancel_left heq
    have heq := List.append_cancel_left heq
    have heq := List.append_cancel_left heq
    have heq := List.append_cancel_left heq
    have heq := List.append_cancel_left heq
    have heq := List.append_cancel_left heq
    have heq := List.append_cancel_left heq
    have heq := List.append_cancel_left heq
    have heq := List.append_cancel_left heq
    have heq := List.append_cancel_left heq
    have heq := List.append_cancel_left heq
    have heq := List.append_cancel_left heq
    exact h7 (intRepr_inj (List.append_cancel_right heq))

/-- Two source descriptors that agree on all fields except exactly one. -/
def OneFieldDiffSource (s t : RuntimeSource) : Prop :=
  (s.color ≠ t.color ∧ s.display = t.display ∧ s.name = t.name ∧ s.value = t.value ∧
    s.desc = t.desc) ∨
  (s.color = t.color ∧ s.display ≠ t.display ∧ s.name = t.name ∧ s.value = t.value ∧
    s.desc = t.desc) ∨
  (s.color = t.color ∧ s.display = t.display ∧ s.name ≠ t.name ∧ s.value = t.value ∧
    s.desc = t.desc) ∨
  (s.color = t.color ∧ s.display = t.display ∧ s.name = t.name ∧ s.value ≠ t.value ∧
    s.desc = t.desc) ∨
  (s.color = t.color ∧ s.display = t.display ∧ s.name = t.name ∧ s.value = t.value ∧
    s.desc ≠ t.desc)

theorem serializeSource_ne {s t : RuntimeSource} (h : OneFieldDiffSource s t) :
    serializeSource s ≠ serializeSource t := by
  intro heq
  rw [serializeSource, serializeSource] at heq
  rcases h with ⟨h1, h2, h3, h4, h5⟩ | ⟨h1, h2, h3, h4, h5⟩ | ⟨h1, h2, h3, h4, h5⟩ |
    ⟨h1, h2, h3, h4, h5⟩ | ⟨h1, h2, h3, h4, h5⟩
  · rw [← h2, ← h3, ← h4, ← h5] at heq
    simp only [List.append_assoc] at heq
    have heq := List.append_cancel_left heq
    exact h1 (serializeStr_inj (List.append_cancel_right heq))
  · rw [← h1, ← h3, ← h4, ← h5] at heq
    simp only [List.append_assoc] at heq
    have heq := List.append_cancel_left heq
    have heq := List.append_cancel_left heq
    have heq := List.append_cancel_left heq
    exact h2 (serializeStr_inj (List.append_cancel_right heq))
  · rw [← h1, ← h2, ← h4, ← h5] at heq
    simp only [List.append_assoc] at heq
    have heq := List.append_cancel_left heq
    have heq := List.append_cancel_left heq
    have heq := List.append_cancel_left heq
    have heq := List.append_cancel_left heq
    have heq := List.append_cancel_left heq
    exact h3 (serializeStr_inj (List.append_cancel_right heq))
  · rw [← h1, ← h2, ← h3, ← h5] at heq
    simp only [List.append_assoc] at heq
    have heq := List.append_cancel_left heq
    have heq := List.append_cancel_left heq
    have heq := List.append_cancel_left heq
    have heq := List.append_cancel_left heq
    have heq := List.append_cancel_left heq
    have heq := List.append_cancel_left heq
    have heq := List.append_cancel_left heq
    exact h4 (intRepr_inj (List.append_cancel_right heq))
  · rw [← h1, ← h2, ← h3, ← h4] at heq
    simp only [List.append_assoc] at heq
    have heq := List.append_cancel_left heq
    have heq := List.append_cancel_left heq
    have heq := List.append_cancel_left heq
    have heq := List.append_cancel_left heq
    have heq := List.append_cancel_left heq
    have heq := List.append_cancel_left heq
    have heq := List.append_cancel_left heq
    have heq := List.append_cancel_left heq
    have heq := List.append_cancel_left heq
    exact h5 (serializeStr_inj (List.append_cancel_right heq))

/-- Two payloads that are identical except for exactly one field: either
one field of one source descriptor in `meta.sources` (same data map), or
one field of one data point (same metadata, same dates in the same
order). -/
def OneFieldDiff (r₁ r₂ : RuntimeDataResponse) : Prop :=
  (r₁.data = r₂.data ∧
    ∃ (pre : List RuntimeSource) (s t : RuntimeSource) (post : List RuntimeSource),
      r₁.meta.sources = pre ++ s :: post ∧ r₂.meta.sources = pre ++ t :: post ∧
      OneFieldDiffSource s t) ∨
  (r₁.meta = r₂.meta ∧
    ∃ (pre : List (String × List RuntimeDataPoint)) (d : String)
      (pts₁ pts₂ : List RuntimeDataPoint) (post : List (String × List RuntimeDataPoint))
      (pre' : List RuntimeDataPoint) (p q : RuntimeDataPoint) (post' : List RuntimeDataPoint),
      r₁.data = pre ++ (d, pts₁) :: post ∧ r₂.data = pre ++ (d, pts₂) :: post ∧
      pts₁ = pre' ++ p :: post' ∧ pts₂ = pre' ++ q :: post' ∧ OneFieldDiffPoint p q)

theorem serializeResponse_ne {r₁ r₂ : RuntimeDataResponse} (h : OneFieldDiff r₁ r₂) :
    serializeResponse r₁ ≠ serializeResponse r₂ := by
  intro heq
  rcases h with ⟨hdata, pre, s, t, post, hm₁, hm₂, hst⟩ |
    ⟨hmeta, pre, d, pts₁, pts₂, post, pre', p, q, post', hd₁, hd₂, hp₁, hp₂, hpq⟩
  · rw [serializeResponse, serializeResponse, hdata, serializeMeta, serializeMeta,
      hm₁, hm₂] at heq
    simp only [List.append_assoc] at heq
    have heq := List.append_cancel_left heq
    have heq := List.append_cancel_left heq
    have heq := List.append_cancel_right heq
    exact serializeArr_ne serializeSource pre post (serializeSource_ne hst) heq
  · rw [serializeResponse, serializeResponse, hmeta, hd₁, hd₂, hp₁, hp₂] at heq
    simp only [List.append_assoc] at heq
    have heq := List.append_cancel_left heq
    have heq := List.append_cancel_left heq
    have heq := List.append_cancel_left heq
    have heq := List.append_cancel_right heq
    exact serializeData_ne pre post
      (serializeEntry_ne (serializeArr_ne serializePoint pre' post' (serializePoint_ne hpq))) heq

/-! ## Facts about the grid transformer -/

theorem rowFrom_length (di ti : Nat) (es : List RuntimeDataPoint) :
    (rowFrom di ti es).length = es.length := by
  induction es generalizing ti with
  | nil => rfl
  | cons e rest ih => simp [rowFrom, ih]

theorem rowFrom_dateIndex {di ti : Nat} {es : List RuntimeDataPoint} {p : HeatmapDataPoint}
    (hp : p ∈ rowFrom di ti es) : p.dateIndex = di := by
  induction es generalizing ti with
  | nil => cases hp
  | cons e rest ih =>
    rcases List.mem_cons.mp hp with rfl | hp
    · rfl
    · exact ih hp

theorem rowFrom_getElem? (di ti : Nat) (es : List RuntimeDataPoint) (j : Nat) :
    (rowFrom di ti es)[j]? =
      (es[j]?).map (fun e => HeatmapDataPoint.mk (ti + j) di e.rtsources) := by
  induction es generalizing ti j with
  | nil => simp [rowFrom]
  | cons e rest ih =>
    cases j with
    | zero => simp [rowFrom]
    | succ j' =>
      simp only [rowFrom, List.getElem?_cons_succ]
      rw [ih (ti + 1) j']
      have : ti + 1 + j' = ti + (j' + 1) := by omega
      rw [this]

theorem rowFrom_mem {di ti : Nat} {es : List RuntimeDataPoint} {p : HeatmapDataPoint}
    (hp : p ∈ rowFrom di ti es) :
    p.dateIndex = di ∧ ∃ j, j < es.length ∧ p.timeIndex = ti + j ∧
      ∃ e, es[j]? = some e ∧ p.value = e.rtsources := by
  induction es generalizing ti with
  | nil => cases hp
  | cons e rest ih =>
    rcases List.mem_cons.mp hp with rfl | hp
    · exact ⟨rfl, 0, by simp, by simp, e, by simp, rfl⟩
    · obtain ⟨hdi, j, hj, hti, e', he', hv⟩ := ih hp
      refine ⟨hdi, j + 1, by simpa using hj, by omega, e', by simpa using he', hv⟩

theorem transformFrom_length (data : RuntimeDataResponse) (di : Nat) (dates : List String)
    (h : ∀ d ∈ dates, (jsLookup data.data d).isSome) :
    (transformFrom data di dates).length =
      (dates.map (fun d => ((jsLookup data.data d).getD []).length)).sum := by
  induction dates generalizing di with
  | nil => rfl
  | cons d rest ih =>
    have hd := h d (List.mem_cons_self d rest)
    obtain ⟨entries, hent⟩ := Option.isSome_iff_exists.mp hd
    simp only [transformFrom, hent, List.length_append, List.map_cons, List.sum_cons]
    rw [rowFrom_length, ih (di + 1) (fun d' hd' => h d' (List.mem_cons_of_mem d hd'))]
    simp [hent]

theorem transformFrom_mem {data : RuntimeDataResponse} {di : Nat} {dates : List String}
    {p : HeatmapDataPoint} (hp : p ∈ transformFrom data di dates) :
    ∃ i, i < dates.length ∧ p.dateIndex = di + i ∧
      ∃ d, dates[i]? = some d ∧ ∃ entries, jsLookup data.data d = some entries ∧
        p.timeIndex < entries.length ∧
        ∃ e, entries[p.timeIndex]? = some e ∧ p.value = e.rtsources := by
  induction dates generalizing di with
  | nil => cases hp
  | cons d rest ih =>
    rw [transformFrom] at hp
    rcases List.mem_append.mp hp with hp | hp
    · cases hent : jsLookup data.data d with
      | none => rw [hent] at hp; cases hp
      | some entries =>
        rw [hent] at hp
        obtain ⟨hdi, j, hj, hti, e, he, hv⟩ := rowFrom_mem hp
        refine ⟨0, by simp, by omega, d, by simp, entries, hent, ?_, e, ?_, hv⟩
        · omega
        · rwa [show p.timeIndex = j by omega]
    · obtain ⟨i, hi, hdi, d', hd', entries, hent, hti, e, he, hv⟩ := ih hp
      exact ⟨i + 1, by simpa using hi, by omega, d', by simpa using hd', entries, hent,
        hti, e, he, hv⟩

theorem transformFrom_dateIndex_ge {data : RuntimeDataResponse} {di : Nat}
    {dates : List String} {p : HeatmapDataPoint} (hp : p ∈ transformFrom data di dates) :
    di ≤ p.dateIndex := by
  obtain ⟨i, _, hdi, _⟩ := transformFrom_mem hp
  omega

theorem transformFrom_filter (data : RuntimeDataResponse) (dates : List String)
    (di i : Nat) (hle : di ≤ i) :
    (transformFrom data di dates).filter (fun p => p.dateIndex == i) =
      (match dates[i - di]? with
       | none => []
       | some d =>
           match jsLookup data.data d with
           | none => []
           | some entries => rowFrom i 0 entries) := by
  induction dates generalizing di with
  | nil => simp [transformFrom]
  | cons d rest ih =>
    rw [transformFrom, List.filter_append]
    by_cases hi : i = di
    · subst hi
      have h1 : (transformFrom data (i + 1) rest).filter (fun p => p.dateIndex == i) = [] := by
        rw [List.filter_eq_nil_iff]
        intro p hp
        have := transformFrom_dateIndex_ge hp
        simp only [beq_iff_eq]
        omega
      rw [h1, List.append_nil]
      have h0 : i - i = 0 := by omega
      rw [h0, List.getElem?_cons_zero]
      cases hent : jsLookup data.data d with
      | none => simp [hent]
      | some entries =>
        simp only [hent]
        refine List.filter_eq_self.mpr ?_
        intro p hp
        simp only [beq_iff_eq]
        exact rowFrom_dateIndex hp
    · have h1 : List.filter (fun p => p.dateIndex == i)
          (match jsLookup data.data d with
           | none => ([] : List HeatmapDataPoint)
           | some entries => rowFrom di 0 entries) = [] := by
        rw [List.filter_eq_nil_iff]
        intro p hp
        cases hent : jsLookup data.data d with
        | none => rw [hent] at hp; cases hp
        | some entries =>
          rw [hent] at hp
          have := rowFrom_dateIndex hp
          simp only [beq_iff_eq]
          omega
      rw [h1, List.nil_append]
      rw [ih (di + 1) (by omega)]
      have h2 : i - di = (i - (di + 1)) + 1 := by omega
      rw [h2, List.getElem?_cons_succ]

/-! ## CSV export (handleDownloadData, src/component/Heatmap.tsx:297-334) -/

/-- The header row pushed first (Heatmap.tsx:306). -/
def csvHeader : String := "Date,Time,rtsources,sys_volt,batt_curr,batt_volt,rect_curr,load_curr"

/-- One data row: the template literal
`` `${date},${entry.time},${entry.rtsources},...` `` — fields joined by
commas with no quoting or escaping of any kind. -/
def csvRow (date : String) (e : RuntimeDataPoint) : List Char :=
  date.data ++ ',' :: e.time.data ++ ',' :: intRepr e.rtsources ++ ',' :: intRepr e.sys_volt ++
    ',' :: intRepr e.batt_curr ++ ',' :: intRepr e.batt_volt ++ ',' :: intRepr e.rect_curr ++
    ',' :: intRepr e.load_curr

/-- All rows pushed to `csvRows`: header, then for each filtered date with
entries present, one row per entry. -/
def csvRows (data : RuntimeDataResponse) (filteredDates : List String) : List (List Char) :=
  csvHeader.data ::
    filteredDates.flatMap (fun date =>
      match jsLookup data.data date with
      | none => []
      | some entries => entries.map (csvRow date))

/-- Splitting a character sequence at commas: the CSV notion of "fields". -/
def fields : List Char → List (List Char)
  | [] => [[]]
  | c :: rest =>
      if c = ',' then [] :: fields rest
      else
        match fields rest with
        | [] => [[c]]
        | f :: fs => (c :: f) :: fs

theorem fields_no_comma {a : List Char} (ha : ∀ c ∈ a, c ≠ ',') : fields a = [a] := by
  induction a with
  | nil => rfl
  | cons c rest ih =>
    have hc : c ≠ ',' := ha c (List.mem_cons_self c rest)
    rw [fields, if_neg hc, ih (fun c' hc' => ha c' (List.mem_cons_of_mem c hc'))]

theorem fields_comma_split {a : List Char} (b : List Char) (ha : ∀ c ∈ a, c ≠ ',') :
    fields (a ++ ',' :: b) = a :: fields b := by
  induction a with
  | nil => simp [fields]
  | cons c rest ih =>
    have hc : c ≠ ',' := ha c (List.mem_cons_self c rest)
    rw [List.cons_append, fields, if_neg hc,
      ih (fun c' hc' => ha c' (List.mem_cons_of_mem c hc'))]

/-- With comma-free date and time fields, a CSV row splits into exactly the
eight emitted fields. -/
theorem fields_csvRow {date : String} {e : RuntimeDataPoint}
    (hdate : ∀ c ∈ date.data, c ≠ ',') (htime : ∀ c ∈ e.time.data, c ≠ ',') :
    fields (csvRow date e) =
      [date.data, e.time.data, intRepr e.rtsources, intRepr e.sys_volt, intRepr e.batt_curr,
        intRepr e.batt_volt, intRepr e.rect_curr, intRepr e.load_curr] := by
  rw [csvRow]
  simp only [List.append_assoc, List.cons_append]
  rw [fields_comma_split _ hdate, fields_comma_split _ htime,
    fields_comma_split _ (intRepr_no_comma _), fields_comma_split _ (intRepr_no_comma _),
    fields_comma_split _ (intRepr_no_comma _), fields_comma_split _ (intRepr_no_comma _),
    fields_comma_split _ (intRepr_no_comma _), fields_no_comma (intRepr_no_comma _)]

/-! ## Untyped JSON values and JS truthiness/typeof (for the cache-enabled
service variant, which validates the parsed payload before caching it) -/

inductive Json where
  | null : Json
  | bool : Bool → Json
  | num : Int → Json
  | str : String → Json
  | arr : List Json → Json
  | obj : List (String × Json) → Json

/-- JS truthiness of a value. -/
def jsTruthy : Json → Bool
  | .null => false
  | .bool b => b
  | .num n => n != 0
  | .str s => s != ""
  | .arr _ => true
  | .obj _ => true

/-- `typeof v === 'object'`: true for objects, arrays and `null`. -/
def jsTypeofObject : Json → Bool
  | .null => true
  | .arr _ => true
  | .obj _ => true
  | .bool _ => false
  | .num _ => false
  | .str _ => false

/-- JS property access `v[k]`; `none` models `undefined` (arrays and
primitives have none of the payload's named properties). -/
def jsGetOpt : Json → String → Option Json
  | .obj fs, k => jsLookup fs k
  | _, _ => none

def truthyOpt : Option Json → Bool
  | none => false
  | some j => jsTruthy j

/-- `typeof v === 'object'` where `v` may be `undefined`. -/
def typeofObjectOpt : Option Json → Bool
  | none => false
  | some j => jsTypeofObject j

def isArrayOpt : Option Json → Bool
  | some (.arr _) => true
  | _ => false

/-! ## API services -/

/-- The outcome of one `fetch` call: `.error m` is a network-level failure
(an `Error` instance with message `m`); otherwise the response's `ok`
flag, status, status text, and the outcome of `response.json()` (`.error m`
is a JSON parse failure, again an `Error` instance with message `m`). -/
structure HttpResp where
  ok : Bool
  status : Nat
  statusText : String
  body : Except String Json

/-- Simple service `fetchRuntimeData`
(src/api/services/runtime-data.service.ts:12-49): a non-2xx response throws
a plain `{message, status, statusText}` object; the catch block rethrows
(`'message' in error` holds for every value thrown here), and network or
parse `Error`s are rethrown as-is (message only). -/
def simpleFetchRuntimeData (net : Except String HttpResp) : Except ApiError Json :=
  match net with
  | .error m => .error { message := m, status := none, statusText := none }
  | .ok resp =>
      if !resp.ok then
        .error { message := "Failed to fetch data: " ++ resp.statusText,
                 status := some resp.status, statusText := some resp.statusText }
      else
        match resp.body with
        | .ok j => .ok j
        | .error m => .error { message := m, status := none, statusText := none }

/-- `createApiError` of the cache-enabled variant: the spreads
`...(status && {status})` and `...(statusText && {statusText})` drop the
field when the argument is falsy (`0` resp. the empty string). -/
def createApiError (message : String) (status : Option Nat) (statusText : Option String) :
    ApiError :=
  { message := message
    status :=
      match status with
      | some s => if s ≠ 0 then some s else none
      | none => none
    statusText :=
      match statusText with
      | some t => if t ≠ "" then some t else none
      | none => none }

/-- `validateResponse` of the cache-enabled variant: `some e` models a
throw. Each test mirrors the JS condition (`!x || typeof x !== 'object'`,
`!Array.isArray(...)`). -/
def validateResponse (j : Json) : Option ApiError :=
  if !(jsTruthy j && jsTypeofObject j) then
    some (createApiError "Invalid response: data is not an object" none none)
  else if !(truthyOpt (jsGetOpt j "meta") && typeofObjectOpt (jsGetOpt j "meta")) then
    some (createApiError "Invalid response: missing or invalid meta field" none none)
  else if !(isArrayOpt ((jsGetOpt j "meta").bind (fun m => jsGetOpt m "sources"))) then
    some (createApiError "Invalid response: meta.sources is not an array" none none)
  else if !(truthyOpt (jsGetOpt j "data") && typeofObjectOpt (jsGetOpt j "data")) then
    some (createApiError "Invalid response: missing or invalid data field" none none)
  else none

/-- The private cache of the cache-enabled service. -/
structure ServiceState where
  cache : Option Json
  cacheTimestamp : Option Int

def cacheDuration : Int := 5 * 60 * 1000

/-- `getCachedData`: the cached payload while fresh, else `null`.
(`this.cache && this.cacheTimestamp` are truthiness tests on the members;
a stored timestamp is a positive epoch-milliseconds value, modelled by
field presence.) -/
def getCachedData (s : ServiceState) (now : Int) : Option Json :=
  match s.cache, s.cacheTimestamp with
  | some c, some ts => if now - ts < cacheDuration then some c else none
  | _, _ => none

/-- A value thrown inside the `try` block of the cache-enabled
`fetchRuntimeData`: the carried `ApiError` view plus whether the value is
an `Error` instance (plain object literals such as `createApiError`'s
results are not). -/
structure Thrown where
  err : ApiError
  isErrorInstance : Bool

/-- The catch block of the cache-enabled `fetchRuntimeData`:
`if (error instanceof Error && 'status' in error) throw error;` then
`throw createApiError(error instanceof Error ? error.message : 'Unknown
error occurred while fetching runtime data', 0, 'Network Error')`. -/
def catchTransform (t : Thrown) : ApiError :=
  if t.isErrorInstance && t.err.status.isSome then t.err
  else
    createApiError
      (if t.isErrorInstance then t.err.message
       else "Unknown error occurred while fetching runtime data")
      (some 0) (some "Network Error")

/-- The `try` block of the cache-enabled `fetchRuntimeData` (after the
cache check): fetch, `ok` test, `json()`, `validateResponse`, then cache
update and return. -/
def cachedTryBody (now : Int) (net : Except String HttpResp) :
    Except Thrown (Json × ServiceState) :=
  match net with
  | .error m => .error ⟨{ message := m, status := none, statusText := none }, true⟩
  | .ok resp =>
      if !resp.ok then
        .error ⟨createApiError ("Failed to fetch runtime data: " ++ resp.statusText)
          (some resp.status) (some resp.statusText), false⟩
      else
        match resp.body with
        | .error m => .error ⟨{ message := m, status := none, statusText := none }, true⟩
        | .ok j =>
            match validateResponse j with
            | some e => .error ⟨e, false⟩
            | none => .ok (j, { cache := some j, cacheTimestamp := some now })

/-- `RuntimeDataService.fetchRuntimeData(useCache)` of the cache-enabled
variant: fresh-cache short-circuit, then the try/catch body. Returns the
result together with the service state after the call. -/
def cachedFetchRuntimeData (useCache : Bool) (s : ServiceState) (now : Int)
    (net : Except String HttpResp) : Except ApiError Json × ServiceState :=
  match (if useCache then getCachedData s now else none) with
  | some c => (.ok c, s)
  | none =>
      match cachedTryBody now net with
      | .ok (j, s') => (.ok j, s')
      | .error t => (.error (catchTransform t), s)

/-- The error every non-`Error` thrown value is collapsed to by the broken
rethrow guard of the cache-enabled variant. -/
def genericWrappedError : ApiError :=
  { message := "Unknown error occurred while fetching runtime data"
    status := none
    statusText := some "Network Error" }

/-! ## Projections of one `fetchData` run -/

theorem fetchDataStep_data (silent : Bool) (outcome : Except ApiError RuntimeDataResponse)
    (s : HookState) :
    (fetchDataStep silent outcome s).data =
      match outcome with
      | .ok result => setDataStep s.data result
      | .error _ => s.data := by
  cases outcome <;> cases hsil : silent <;> cases him : s.isInitialMount <;>
    simp [fetchDataStep, him]

theorem fetchDataStep_error (silent : Bool) (outcome : Except ApiError RuntimeDataResponse)
    (s : HookState) :
    (fetchDataStep silent outcome s).error =
      match outcome with
      | .ok _ => none
      | .error e => if silent then none else some e := by
  cases outcome <;> cases hsil : silent <;> cases him : s.isInitialMount <;>
    simp [fetchDataStep, him]

theorem fetchDataStep_loading (silent : Bool) (outcome : Except ApiError RuntimeDataResponse)
    (s : HookState) :
    (fetchDataStep silent outcome s).loading =
      (if !silent || s.isInitialMount then false else s.loading) := by
  cases outcome <;> cases hsil : silent <;> cases him : s.isInitialMount <;>
    simp [fetchDataStep, him]

/-- Every error thrown by `validateResponse` is a plain status-less
"Invalid response: ..." error, distinct from the generic wrapper message. -/
theorem validateResponse_message {j : Json} {e : ApiError} (h : validateResponse j = some e) :
    e.status = none ∧ e.statusText = none ∧
    e.message ≠ "Unknown error occurred while fetching runtime data" := by
  simp only [validateResponse] at h
  repeat' split at h
  all_goals cases h
  all_goals exact ⟨rfl, rfl, by decide⟩

/-! ## Concrete example payloads (shared by witnesses and counterexamples) -/

def exPoint11 : RuntimeDataPoint := ⟨"00:00", 1, 53, 10, 52, 5, 7⟩
def exPoint12 : RuntimeDataPoint := ⟨"00:30", 2, 53, 10, 52, 5, 7⟩
def exPoint21 : RuntimeDataPoint := ⟨"00:00", 3, 53, 10, 52, 5, 7⟩
def exPoint22 : RuntimeDataPoint := ⟨"00:30", 4, 53, 10, 52, 5, 7⟩

/-- A payload with two dates (stored out of order) holding two points each. -/
def exResp : RuntimeDataResponse :=
  ⟨⟨[]⟩, [("2024-01-02", [exPoint21, exPoint22]), ("2024-01-01", [exPoint11, exPoint12])]⟩

def exRespA : RuntimeDataResponse :=
  ⟨⟨[]⟩, [("2024-01-01", [exPoint11]), ("2024-01-02", [exPoint21])]⟩

/-- `exRespA` with the two date keys stored in the opposite order. -/
def exRespB : RuntimeDataResponse :=
  ⟨⟨[]⟩, [("2024-01-02", [exPoint21]), ("2024-01-01", [exPoint11])]⟩

/-- `exRespA` with a single changed `rtsources` value. -/
def exRespC : RuntimeDataResponse :=
  ⟨⟨[]⟩, [("2024-01-01", [⟨"00:00", 9, 53, 10, 52, 5, 7⟩]), ("2024-01-02", [exPoint21])]⟩

/-- A payload carrying one source descriptor. -/
def exRespM1 : RuntimeDataResponse :=
  ⟨⟨[⟨"#4CAF50", "Battery", "battery", 1, "Battery only"⟩]⟩, [("2024-01-01", [exPoint11])]⟩

/-- `exRespM1` with a single changed source color. -/
def exRespM2 : RuntimeDataResponse :=
  ⟨⟨[⟨"#FF0000", "Battery", "battery", 1, "Battery only"⟩]⟩, [("2024-01-01", [exPoint11])]⟩

def exErr : ApiError := ⟨"initial load failed", some 500, some "Internal Server Error"⟩

def exErr2 : ApiError := ⟨"poll failed", none, none⟩

theorem contains_allowed_iff (s : String) :
    ALLOWED_SOURCES.contains s = true ↔ s ∈ ALLOWED_SOURCES := List.elem_iff

/-! ## Claim theorems -/

/-- C7: `filterDatesByRange` returns the empty list whenever `start` is
empty, `end` is empty, or `allDates` is empty; otherwise it returns exactly
the dates `d` of `allDates` with `start <= d <= end` under (JS) string
comparison, inclusive of both endpoints, as the concrete example
`filterDatesByRange ["2024-01-01","2024-01-02","2024-01-03"] "2024-01-01"
"2024-01-02" = ["2024-01-01","2024-01-02"]` shows. -/
theorem filterDatesByRange_spec :
    (∀ (allDates : List String) (s e : String),
        s = "" ∨ e = "" ∨ allDates = [] → filterDatesByRange allDates s e = []) ∧
    (∀ (allDates : List String) (s e d : String),
        d ∈ filterDatesByRange allDates s e ↔
          d ∈ allDates ∧ s ≠ "" ∧ e ≠ "" ∧ jsLeB s d = true ∧ jsLeB d e = true) ∧
    filterDatesByRange ["2024-01-01", "2024-01-02", "2024-01-03"] "2024-01-01" "2024-01-02" =
      ["2024-01-01", "2024-01-02"] := by
  refine ⟨?_, ?_, by decide⟩
  · rintro ds s e (rfl | rfl | rfl) <;> simp [filterDatesByRange]
  · intro ds s e d
    by_cases hs : s = ""
    · subst hs; simp [filterDatesByRange]
    by_cases he : e = ""
    · subst he; simp [filterDatesByRange, hs]
    by_cases hds : ds = []
    · subst hds; simp [filterDatesByRange]
    · rw [filterDatesByRange, if_neg (by simp [hs, he, hds, List.length_eq_zero])]
      simp [List.mem_filter, hs, he, and_assoc]

/-- C7 witness: the empty-range sentinel and an inclusive-endpoint
membership at concrete inputs. -/
theorem filterDatesByRange_spec_witness :
    filterDatesByRange ["2024-01-01"] "" "2024-01-02" = [] ∧
    "2024-01-02" ∈ filterDatesByRange ["2024-01-01", "2024-01-02", "2024-01-03"]
      "2024-01-01" "2024-01-02" := by
  constructor
  · exact filterDatesByRange_spec.1 ["2024-01-01"] "" "2024-01-02" (Or.inl rfl)
  · exact (filterDatesByRange_spec.2.1 ["2024-01-01", "2024-01-02", "2024-01-03"]
      "2024-01-01" "2024-01-02" "2024-01-02").mpr (by decide)

/-- C9: `getEntryByIndices` is total: it returns `null` when the date is
absent from the data map or the integer `timeIndex` is out of bounds, and
otherwise returns exactly the entry at position `timeIndex` of that date's
list. -/
theorem getEntryByIndices_spec (data : RuntimeDataResponse) (date : String) (timeIndex : Int) :
    (jsLookup data.data date = none → getEntryByIndices data date timeIndex = none) ∧
    ∀ entries, jsLookup data.data date = some entries →
      (timeIndex < 0 ∨ (entries.length : Int) ≤ timeIndex →
        getEntryByIndices data date timeIndex = none) ∧
      ∀ (_h2 : 0 ≤ timeIndex) (h3 : timeIndex.toNat < entries.length),
        getEntryByIndices data date timeIndex = some (entries.get ⟨timeIndex.toNat, h3⟩) := by
  constructor
  · intro h
    simp [getEntryByIndices, h]
  · intro entries h
    constructor
    · intro hob
      simp only [getEntryByIndices, h]
      rw [dif_neg]
      omega
    · intro h2 h3
      simp only [getEntryByIndices, h]
      rw [dif_pos ⟨h2, h3⟩]

/-- C9 witness: in-bounds access returns the entry, negative index and
missing date return `null`. -/
theorem getEntryByIndices_spec_witness :
    getEntryByIndices exResp "2024-01-01" 1 = some exPoint12 ∧
    getEntryByIndices exResp "2024-01-01" (-1) = none ∧
    getEntryByIndices exResp "2024-01-03" 0 = none := by
  refine ⟨?_, ?_, ?_⟩
  · exact ((getEntryByIndices_spec exResp "2024-01-01" 1).2 [exPoint11, exPoint12]
      (by decide)).2 (by decide) (by decide)
  · exact ((getEntryByIndices_spec exResp "2024-01-01" (-1)).2 [exPoint11, exPoint12]
      (by decide)).1 (by decide)
  · exact (getEntryByIndices_spec exResp "2024-01-03" 0).1 (by decide)

/-- C10: `createVisualMap` emits exactly one piece per source whose display
label is allowed (Battery / Battery Solar / Genset Battery / Genset Solar
Battery), in payload order, each with `min = max = value` and the source's
color and label; sources with any other display label contribute no
piece. -/
theorem createVisualMap_spec (data : RuntimeDataResponse) :
    (createVisualMap data).pieces =
      (data.meta.sources.filter (fun source => ALLOWED_SOURCES.contains source.display)).map
        (fun source => ⟨source.value, source.value, source.color, source.display⟩) ∧
    (∀ p ∈ (createVisualMap data).pieces,
      p.min = p.max ∧ p.label ∈ ALLOWED_SOURCES ∧
      ∃ source ∈ data.meta.sources,
        source.display = p.label ∧ source.value = p.min ∧ source.color = p.color) ∧
    (∀ source ∈ data.meta.sources, ALLOWED_SOURCES.contains source.display = true →
      (⟨source.value, source.value, source.color, source.display⟩ : VisualMapPiece) ∈
        (createVisualMap data).pieces) ∧
    (createVisualMap data).pieces.length =
      data.meta.sources.countP (fun source => ALLOWED_SOURCES.contains source.display) ∧
    (∀ source ∈ data.meta.sources, source.display ∉ ALLOWED_SOURCES →
      ∀ p ∈ (createVisualMap data).pieces, p.label ≠ source.display) := by
  refine ⟨rfl, ?_, ?_, ?_, ?_⟩
  · intro p hp
    simp only [createVisualMap, List.mem_map, List.mem_filter] at hp
    obtain ⟨src, ⟨hsmem, hallow⟩, rfl⟩ := hp
    exact ⟨rfl, (contains_allowed_iff _).mp hallow, src, hsmem, rfl, rfl, rfl⟩
  · intro src hs hallow
    simp only [createVisualMap, List.mem_map]
    exact ⟨src, List.mem_filter.mpr ⟨hs, hallow⟩, rfl⟩
  · simp [createVisualMap, List.countP_eq_length_filter]
  · intro src _hs hnot p hp heq
    simp only [createVisualMap, List.mem_map, List.mem_filter] at hp
    obtain ⟨src', ⟨_, hallow'⟩, rfl⟩ := hp
    exact hnot (heq ▸ (contains_allowed_iff _).mp hallow')

def exBattery : RuntimeSource := ⟨"#4CAF50", "Battery", "battery", 1, "Battery only"⟩

def exUnknown : RuntimeSource := ⟨"#999999", "Unknown", "unknown", 0, "Unknown source"⟩

def exVmResp : RuntimeDataResponse := ⟨⟨[exUnknown, exBattery]⟩, []⟩

/-- C10 witness: for a payload with one allowed and one unknown source,
the allowed source's piece is present and the piece list has length 1. -/
theorem createVisualMap_spec_witness :
    (⟨1, 1, "#4CAF50", "Battery"⟩ : VisualMapPiece) ∈ (createVisualMap exVmResp).pieces ∧
    (createVisualMap exVmResp).pieces.length = 1 := by
  constructor
  · exact (createVisualMap_spec exVmResp).2.2.1 exBattery (by decide) (by decide)
  · rw [(createVisualMap_spec exVmResp).2.2.2.1]
    decide

/-- C8: for a payload with duplicate-free, non-empty (ISO) date keys,
`extractTimeSlots(data, extractDates(data))` is empty when the payload has
no dates, and otherwise has length equal to the point count under the
lexicographically smallest date key. -/
theorem extractTimeSlots_roundTrip (data : RuntimeDataResponse)
    (hnd : (data.data.map Prod.fst).Nodup)
    (hne : ∀ k ∈ data.data.map Prod.fst, k ≠ "") :
    (data.data = [] → extractTimeSlots data (extractDates data) = []) ∧
    ∀ k pts, (k, pts) ∈ data.data →
      (∀ k' ∈ data.data.map Prod.fst, jsLeB k k' = true) →
      (extractTimeSlots data (extractDates data)).length = pts.length := by
  constructor
  · intro h
    rw [extractDates, h]
    rfl
  · intro k pts hmem hmin
    have hkmem : k ∈ data.data.map Prod.fst := List.mem_map.mpr ⟨(k, pts), hmem, rfl⟩
    have hksort : k ∈ jsSort (data.data.map Prod.fst) := (jsSort_perm _).mem_iff.mpr hkmem
    cases hsort : jsSort (data.data.map Prod.fst) with
    | nil => rw [hsort] at hksort; cases hksort
    | cons h0 t =>
      have hh0mem : h0 ∈ data.data.map Prod.fst := by
        have hh : h0 ∈ jsSort (data.data.map Prod.fst) := by
          rw [hsort]; exact List.mem_cons_self _ _
        exact (jsSort_perm _).mem_iff.mp hh
      have hsorted : LexSorted (h0 :: t) := by rw [← hsort]; exact jsSort_sorted _
      have h1 : jsLeB h0 k = true := by
        refine lexSorted_head_min hsorted k ?_
        rw [← hsort]; exact hksort
      have h2 : jsLeB k h0 = true := hmin h0 hh0mem
      have hk0 : h0 = k := jsLeB_antisymm h1 h2
      rw [← hk0] at hmem
      rw [extractTimeSlots, extractDates, hsort]
      simp only [List.head?_cons]
      rw [if_neg (hne h0 hh0mem), jsLookup_of_mem_nodup hmem hnd]
      exact List.length_map _ _

/-- C8 witness: on a two-date payload stored out of order, the time-slot
list has the length of the list under the smallest date. -/
theorem extractTimeSlots_roundTrip_witness :
    (extractTimeSlots exResp (extractDates exResp)).length = 2 := by
  exact (extractTimeSlots_roundTrip exResp (by decide) (by decide)).2 "2024-01-01"
    [exPoint11, exPoint12] (by decide) (by decide)

theorem rowFrom_timeIndex_ge {di ti : Nat} {es : List RuntimeDataPoint} {p : HeatmapDataPoint}
    (hp : p ∈ rowFrom di ti es) : ti ≤ p.timeIndex := by
  obtain ⟨-, j, -, hti, -⟩ := rowFrom_mem hp
  omega

theorem rowFrom_pairwise (di ti : Nat) (es : List RuntimeDataPoint) :
    (rowFrom di ti es).Pairwise
      (fun p q => p.dateIndex = q.dateIndex ∧ p.timeIndex < q.timeIndex) := by
  induction es generalizing ti with
  | nil => exact List.Pairwise.nil
  | cons e rest ih =>
    refine List.pairwise_cons.mpr ⟨?_, ih (ti + 1)⟩
    intro q hq
    have h1 := rowFrom_dateIndex hq
    have h2 := rowFrom_timeIndex_ge hq
    exact ⟨h1.symm, by simpa using by omega⟩

theorem transformFrom_pairwise (data : RuntimeDataResponse) (di : Nat) (dates : List String) :
    (transformFrom data di dates).Pairwise
      (fun p q => p.dateIndex < q.dateIndex ∨
        (p.dateIndex = q.dateIndex ∧ p.timeIndex < q.timeIndex)) := by
  induction dates generalizing di with
  | nil => exact List.Pairwise.nil
  | cons d rest ih =>
    cases hent : jsLookup data.data d with
    | none =>
      simp only [transformFrom, hent, List.nil_append]
      exact ih (di + 1)
    | some entries =>
      simp only [transformFrom, hent]
      refine List.pairwise_append.mpr ⟨?_, ih (di + 1), ?_⟩
      · exact (rowFrom_pairwise di 0 entries).imp (fun h => Or.inr h)
      · intro p hp q hq
        have h1 := rowFrom_dateIndex hp
        have h2 := transformFrom_dateIndex_ge hq
        exact Or.inl (by omega)

/-- C1: `transformToHeatmapData` emits, for each filtered date present in
the data map, one point per entry, with `timeIndex` the entry position,
`dateIndex` the date position, `value` the entry's `rtsources`; absent
dates contribute nothing; when every filtered date is present the length is
the sum of the per-date list lengths; all indices are in bounds; and the
output is ordered per-date then per-slot. -/
theorem transformToHeatmapData_spec (data : RuntimeDataResponse) (filteredDates : List String) :
    ((∀ d ∈ filteredDates, (jsLookup data.data d).isSome) →
      (transformToHeatmapData data filteredDates).length =
        (filteredDates.map (fun d => ((jsLookup data.data d).getD []).length)).sum) ∧
    (∀ p ∈ transformToHeatmapData data filteredDates,
      p.dateIndex < filteredDates.length ∧
      ∃ d, filteredDates[p.dateIndex]? = some d ∧
        ∃ entries, jsLookup data.data d = some entries ∧
          p.timeIndex < entries.length ∧
          ∃ e, entries[p.timeIndex]? = some e ∧ p.value = e.rtsources) ∧
    (∀ i d, filteredDates[i]? = some d →
      ((transformToHeatmapData data filteredDates).filter
          (fun p => p.dateIndex == i)).length =
        ((jsLookup data.data d).getD []).length ∧
      ∀ j e, ((jsLookup data.data d).getD [])[j]? = some e →
        ((transformToHeatmapData data filteredDates).filter
            (fun p => p.dateIndex == i))[j]? =
          some (HeatmapDataPoint.mk j i e.rtsources)) ∧
    (transformToHeatmapData data filteredDates).Pairwise
      (fun p q => p.dateIndex < q.dateIndex ∨
        (p.dateIndex = q.dateIndex ∧ p.timeIndex < q.timeIndex)) := by
  refine ⟨?_, ?_, ?_, transformFrom_pairwise data 0 filteredDates⟩
  · intro h
    exact transformFrom_length data 0 filteredDates h
  · intro p hp
    obtain ⟨i, hi, hdi, d, hd, entries, hent, hti, e, he, hv⟩ := transformFrom_mem hp
    have hdi0 : p.dateIndex = i := by omega
    subst hdi0
    exact ⟨hi, d, hd, entries, hent, hti, e, he, hv⟩
  · intro i d hd
    have hfil := transformFrom_filter data filteredDates 0 i (Nat.zero_le i)
    rw [Nat.sub_zero, hd] at hfil
    rw [transformToHeatmapData, hfil]
    cases hent : jsLookup data.data d with
    | none => simp [hent]
    | some entries =>
      simp only [hent, Option.getD_some]
      constructor
      · simp [rowFrom_length]
      · intro j e he
        rw [rowFrom_getElem?, he]
        simp

/-- C1 witness: on a two-date payload with two points per date and every
filtered date present, the transform emits 2 + 2 points. -/
theorem transformToHeatmapData_spec_witness :
    (transformToHeatmapData exResp ["2024-01-01", "2024-01-02"]).length = 4 := by
  have h := (transformToHeatmapData_spec exResp ["2024-01-01", "2024-01-02"]).1 (by decide)
  rw [h]
  decide

/-- C2 counterexample: `exRespA` and `exRespB` are structurally identical
(same metadata; the two date keys map to the same values, stored in
opposite orders), yet `hasDataChanged` reports a change and the `setData`
updater inside `fetchData` replaces the held payload. -/
theorem hasDataChanged_keyOrder_counterexample :
    structurallyIdenticalB exRespA exRespB = true ∧
    hasDataChanged (some exRespA) (some exRespB) = true ∧
    (fetchDataStep true (.ok exRespB) (HookState.mk (some exRespA) false none false)).data =
      some exRespB ∧
    exRespB ≠ exRespA := by
  have hchanged : hasDataChanged (some exRespA) (some exRespB) = true := by
    simp [hasDataChanged, serializeResponse, serializeMeta, serializeData, serializeEntry,
      serializeArr, sepBy, sepByTail, serializePoint, serializeStr, escape, escapeChar, lit,
      intRepr, natRepr, digitChar, exRespA, exRespB, exPoint11, exPoint21, bne]
  refine ⟨by decide, hchanged, ?_, by decide⟩
  rw [fetchDataStep_data]
  simp [setDataStep, hchanged]

/-- C2 amended: a re-fetched payload equal to the held one (same keys and
values in the same order — the serializations coincide) leaves the held
data unchanged; a payload differing from the held one in exactly one field
— whether a field of one source descriptor in `meta.sources` or a field of
one data point — makes `hasDataChanged` return `true` and replaces the
held data. (As stated the claim is false: `hasDataChanged` compares
`JSON.stringify` output, which depends on key order.) -/
theorem hasDataChanged_spec :
    (∀ (s : HookState) (silent : Bool) (r : RuntimeDataResponse),
      s.data = some r →
      hasDataChanged s.data (some r) = false ∧
      (fetchDataStep silent (.ok r) s).data = some r) ∧
    (∀ (s : HookState) (silent : Bool) (r₁ r₂ : RuntimeDataResponse),
      s.data = some r₁ → OneFieldDiff r₁ r₂ →
      hasDataChanged s.data (some r₂) = true ∧
      (fetchDataStep silent (.ok r₂) s).data = some r₂) := by
  constructor
  · intro s silent r hs
    have hfalse : hasDataChanged s.data (some r) = false := by
      rw [hs]; simp [hasDataChanged]
    exact ⟨hfalse, by rw [fetchDataStep_data]; simp [setDataStep, hfalse, hs]⟩
  · intro s silent r₁ r₂ hs hdiff
    have htrue : hasDataChanged s.data (some r₂) = true := by
      rw [hs]
      simpa [hasDataChanged] using serializeResponse_ne hdiff
    exact ⟨htrue, by rw [fetchDataStep_data]; simp [setDataStep, htrue]⟩

/-- C2 witness: re-fetching the identical payload keeps the held data;
re-fetching a payload with one changed `rtsources` value replaces it, and
so does a payload with one changed source color in `meta.sources`. -/
theorem hasDataChanged_spec_witness :
    (fetchDataStep true (.ok exRespA) (HookState.mk (some exRespA) false none false)).data =
      some exRespA ∧
    (fetchDataStep true (.ok exRespC) (HookState.mk (some exRespA) false none false)).data =
      some exRespC ∧
    (fetchDataStep true (.ok exRespM2) (HookState.mk (some exRespM1) false none false)).data =
      some exRespM2 := by
  refine ⟨?_, ?_, ?_⟩
  · exact (hasDataChanged_spec.1 (HookState.mk (some exRespA) false none false) true
      exRespA rfl).2
  · refine (hasDataChanged_spec.2 (HookState.mk (some exRespA) false none false) true
      exRespA exRespC rfl ?_).2
    refine Or.inr ⟨rfl, [], "2024-01-01", [exPoint11], [⟨"00:00", 9, 53, 10, 52, 5, 7⟩],
      [("2024-01-02", [exPoint21])], [], exPoint11, ⟨"00:00", 9, 53, 10, 52, 5, 7⟩, [],
      rfl, rfl, rfl, rfl, ?_⟩
    exact Or.inr (Or.inl ⟨rfl, by decide, rfl, rfl, rfl, rfl, rfl⟩)
  · refine (hasDataChanged_spec.2 (HookState.mk (some exRespM1) false none false) true
      exRespM1 exRespM2 rfl ?_).2
    refine Or.inl ⟨rfl, [], ⟨"#4CAF50", "Battery", "battery", 1, "Battery only"⟩,
      ⟨"#FF0000", "Battery", "battery", 1, "Battery only"⟩, [], rfl, rfl, ?_⟩
    exact Or.inl ⟨by decide, rfl, rfl, rfl, rfl⟩

/-- C3 counterexample: a failed silent fetch does not leave all prior
exposed state untouched — the unconditional `setError(null)` at the start
of `fetchData` clears a previously displayed error. Held data is kept. -/
theorem silentFetchFailure_counterexample :
    (HookState.mk (some exRespA) false (some exErr) false).error = some exErr ∧
    (fetchDataStep true (.error exErr2)
      (HookState.mk (some exRespA) false (some exErr) false)).error = none ∧
    (fetchDataStep true (.error exErr2)
      (HookState.mk (some exRespA) false (some exErr) false)).error ≠ some exErr ∧
    (fetchDataStep true (.error exErr2)
      (HookState.mk (some exRespA) false (some exErr) false)).data = some exRespA := by
  refine ⟨rfl, by decide, by decide, by decide⟩

/-- C3 amended: a failed silent fetch never clears or replaces held data
and never sets the error field to an error value (it resets it to `null`,
clearing any previously displayed error), and leaves `loading` untouched
once the initial mount is over. -/
theorem silentFetchFailure_spec (s : HookState) (e : ApiError) :
    (fetchDataStep true (.error e) s).data = s.data ∧
    (fetchDataStep true (.error e) s).error = none ∧
    (s.isInitialMount = false → (fetchDataStep true (.error e) s).loading = s.loading) := by
  refine ⟨?_, ?_, ?_⟩
  · rw [fetchDataStep_data]
  · simp [fetchDataStep_error]
  · intro him
    rw [fetchDataStep_loading, him]
    simp

/-- C3 witness: a silent failure after the initial mount keeps the data,
clears the error to `null`, and leaves `loading` as it was. -/
theorem silentFetchFailure_spec_witness :
    (fetchDataStep true (.error exErr2)
      (HookState.mk (some exRespA) true (some exErr) false)).data = some exRespA ∧
    (fetchDataStep true (.error exErr2)
      (HookState.mk (some exRespA) true (some exErr) false)).error = none ∧
    (fetchDataStep true (.error exErr2)
      (HookState.mk (some exRespA) true (some exErr) false)).loading = true := by
  obtain ⟨h1, h2, h3⟩ :=
    silentFetchFailure_spec (HookState.mk (some exRespA) true (some exErr) false) exErr2
  exact ⟨h1, h2, h3 rfl⟩

/-- C4 counterexample: the CSV export's data row has exactly 8
comma-separated fields, not 10, and its header is the 8-column
`Date,Time,rtsources,...` header, not the 10-column one with Source and
Description. -/
theorem csvExport_counterexample :
    (fields (csvRow "2024-01-01" exPoint11)).length = 8 ∧
    (fields (csvRow "2024-01-01" exPoint11)).length ≠ 10 ∧
    csvHeader ≠
      "Date,Time,Source,Description,rtsources,sys_volt,batt_curr,batt_volt,rect_curr,load_curr" := by
  have h8 : (fields (csvRow "2024-01-01" exPoint11)).length = 8 := by
    rw [fields_csvRow (by decide) (by decide)]
    rfl
  exact ⟨h8, by rw [h8]; decide, by decide⟩

/-- C4 amended: for a filtered range holding exactly one data point, the
export emits the 8-column header
`Date,Time,rtsources,sys_volt,batt_curr,batt_volt,rect_curr,load_curr` and
one data row that is the comma-join of the 8 fields emitted verbatim — no
quoting or escaping is applied — so when the date and time contain no
comma the row splits into exactly those 8 fields. -/
theorem csvExport_spec (data : RuntimeDataResponse) (date : String) (e : RuntimeDataPoint)
    (hlookup : jsLookup data.data date = some [e])
    (hdate : ∀ c ∈ date.data, c ≠ ',') (htime : ∀ c ∈ e.time.data, c ≠ ',') :
    csvRows data [date] = [csvHeader.data, csvRow date e] ∧
    fields (csvRow date e) =
      [date.data, e.time.data, intRepr e.rtsources, intRepr e.sys_volt, intRepr e.batt_curr,
        intRepr e.batt_volt, intRepr e.rect_curr, intRepr e.load_curr] ∧
    (fields (csvRow date e)).length = 8 := by
  refine ⟨?_, fields_csvRow hdate htime, ?_⟩
  · simp [csvRows, hlookup]
  · rw [fields_csvRow hdate htime]
    rfl

/-- C4 witness: the export of a one-point range at a concrete payload. -/
theorem csvExport_spec_witness :
    csvRows (RuntimeDataResponse.mk ⟨[]⟩ [("2024-01-01", [exPoint11])]) ["2024-01-01"] =
      [csvHeader.data, csvRow "2024-01-01" exPoint11] ∧
    (fields (csvRow "2024-01-01" exPoint11)).length = 8 := by
  obtain ⟨h1, _h2, h3⟩ := csvExport_spec (RuntimeDataResponse.mk ⟨[]⟩ [("2024-01-01", [exPoint11])])
    "2024-01-01" exPoint11 (by decide) (by decide) (by decide)
  exact ⟨h1, h3⟩

/-- C5 (code bug): on a non-2xx response the simple `fetchRuntimeData`
rejects with the message, the response's status code and its status text,
as the claim states; the cache-enabled variant does not — its rethrow guard
`error instanceof Error && 'status' in error` never matches the plain
error object the same function throws, so the HTTP-status error is
re-wrapped into the generic `{message: 'Unknown error occurred while
fetching runtime data', statusText: 'Network Error'}` carrying no status. -/
theorem httpStatusError_spec :
    (∀ (st : Nat) (stTxt : String) (body : Except String Json),
      simpleFetchRuntimeData (.ok (HttpResp.mk false st stTxt body)) =
        .error (ApiError.mk ("Failed to fetch data: " ++ stTxt) (some st) (some stTxt))) ∧
    cachedFetchRuntimeData true (ServiceState.mk none none) 0
        (.ok (HttpResp.mk false 404 "Not Found" (.ok Json.null))) =
      (.error genericWrappedError, ServiceState.mk none none) ∧
    genericWrappedError.status = none ∧
    genericWrappedError.statusText = some "Network Error" := by
  refine ⟨?_, ?_, rfl, rfl⟩
  · intro st stTxt body
    rfl
  · rfl

def exBadJson : Json := Json.obj [("meta", Json.num 5)]

def exBadResp : HttpResp := ⟨true, 200, "OK", .ok exBadJson⟩

/-- C6 (code bug): when the fetched payload fails `validateResponse`, the
cache-enabled `fetchRuntimeData` rejects before anything is cached and the
service state (cache and timestamp) is unchanged — but the surfaced error
is the generic network-error wrapper, not the thrown ValidationError,
because the catch block's rethrow guard never matches plain objects. -/
theorem validationFailure_spec (s : ServiceState) (now : Int) (resp : HttpResp) (j : Json)
    (hmiss : getCachedData s now = none)
    (hok : resp.ok = true) (hbody : resp.body = .ok j)
    (e : ApiError) (hinvalid : validateResponse j = some e) :
    cachedFetchRuntimeData true s now (.ok resp) = (.error genericWrappedError, s) ∧
    genericWrappedError.message ≠ e.message := by
  have hbodyres : cachedTryBody now (.ok resp) = .error ⟨e, false⟩ := by
    rw [cachedTryBody]
    simp [hok, hbody, hinvalid]
  constructor
  · rw [cachedFetchRuntimeData]
    simp only [if_true, hmiss, hbodyres]
    simp [catchTransform, createApiError, genericWrappedError]
  · have hmsg := (validateResponse_message hinvalid).2.2
    exact fun h => hmsg (h.symm)

/-- C6 witness: a payload whose `meta` is the number 5 is rejected with the
generic wrapped error and leaves an empty cache empty. -/
theorem validationFailure_spec_witness :
    cachedFetchRuntimeData true (ServiceState.mk none none) 0 (.ok exBadResp) =
      (.error genericWrappedError, ServiceState.mk none none) := by
  exact (validationFailure_spec (ServiceState.mk none none) 0 exBadResp exBadJson rfl rfl rfl
    (createApiError "Invalid response: missing or invalid meta field" none none) rfl).1

end Reon
